import Mathlib

/-!
Verification development for the apiary HTTP gateway.

Shallow embedding of the credential store (core/api_key_manager.py,
core/api_key_validator.py), the rate limiter and its middleware
(core/rate_limiter.py), the request-validation middleware
(core/request_validation.py), the application error handlers (app.py),
the endpoint configuration validator (config/endpoint_config.py),
the dynamic route engine (core/router_factory.py) and the service
registry (core/services/init module).

Modelling conventions: Python strings that undergo character-level
processing (credential sources) are lists of characters; machine floats
from time.time are modelled as integers, since every claim is about
ordering and addition of timestamps; the filesystem is an explicit
structure of pure functions; exceptions are Except / Option results;
Python dicts are association lists or functions to Option.
-/

set_option maxRecDepth 8000

namespace Apiary

/-! ## Python string primitives over lists of characters -/

/-- Strings processed character by character are lists of characters. -/
abbrev Str := List Char

/-- Characters removed by Python str.strip with no arguments
(restricted to the ASCII whitespace the repository's inputs use). -/
def isSpc (c : Char) : Bool := c == ' ' || c == '\t' || c == '\n' || c == '\r'

/-- Python str.strip: drop whitespace from both ends. -/
def pyStrip (l : Str) : Str :=
  ((l.dropWhile isSpc).reverse.dropWhile isSpc).reverse

/-- Python str.split with an explicit one-character separator: splits at every
occurrence and keeps empty segments, so the result is never empty. -/
def pySplit (sep : Char) : Str → List Str
  | [] => [[]]
  | c :: rest =>
      if c = sep then [] :: pySplit sep rest
      else
        match pySplit sep rest with
        | [] => [[c]]
        | r :: rs => (c :: r) :: rs

/-- Python str.join of segments with a one-character separator. -/
def joinSep (sep : Char) : List Str → Str
  | [] => []
  | [s] => s
  | s :: rest => s ++ sep :: joinSep sep rest

/-- Python str.endswith: the last characters of l equal sfx. -/
def ends_with (l sfx : Str) : Bool := l.drop (l.length - sfx.length) == sfx

/-- Trailing-whitespace strip, the right half of Python str.strip. -/
def stripTail (l : Str) : Str := (l.reverse.dropWhile isSpc).reverse

/-- Suffix ".txt" recognised by the source classifier. -/
def txtSfx : Str := ['.', 't', 'x', 't']

/-- Suffix ".keys" recognised by the source classifier. -/
def keySfx : Str := ['.', 'k', 'e', 'y', 's']

/-- Python line.startswith on a one-character marker. -/
def startsHash : Str → Bool
  | [] => false
  | c :: _ => c == '#'

/-! ## Filesystem abstraction

The credential store consults the disk through Path.exists, Path.is_file
and open/read.  A pure filesystem value records those three observations;
readFile yields none when open or read raises. -/

structure SysFS where
  pathExists : Str → Bool
  isFile : Str → Bool
  readFile : Str → Option (List Str)

/-- A filesystem on which no path exists and every read fails. -/
def fsEmpty : SysFS := ⟨fun _ => false, fun _ => false, fun _ => none⟩

/-! ## core/api_key_validator.py -/

/-- Classification held in the validation result's type field, with the
resolved path when the source is a file. -/
inductive SrcType
  | str
  | file (p : Str)
deriving DecidableEq

/-- Warnings collected by validate_api_key_source, tagged by the condition
that produced the warning message. -/
inductive KeyWarn
  | noKeysInFile
  | shortKey (k : Str)
  | longKey (k : Str)
deriving DecidableEq

/-- Errors collected by validate_api_key_source, tagged by the condition
that produced the error message. -/
inductive KeyErr
  | emptySource
  | cannotReadFile
  | existsNotAFile
  | missingPathLike
  | noKeysInString
deriving DecidableEq

/-- Result record of validate_api_key_source. -/
structure ValRes where
  valid : Bool
  vtype : SrcType
  warnings : List KeyWarn
  errors : List KeyErr
deriving DecidableEq

/-- The looks-like-a-file-path test of validate_api_key_source: contains a
separator or ends in a recognised key-file suffix. -/
def looks_like_path (s : Str) : Bool :=
  s.contains '/' || ends_with s txtSfx || ends_with s keySfx

/-- Lines of a key file that count as keys: stripped, non-empty, not a
comment. -/
def parse_file_lines (lines : List Str) : List Str :=
  (lines.map pyStrip).filter (fun l => !l.isEmpty && !startsHash l)

/-- Comma-separated segments of a source string, stripped, with empty
segments dropped (the keys list built at line 111 and by
APIKeyManager parse of a key string). -/
def parse_key_string (s : Str) : List Str :=
  ((pySplit ',' s).map pyStrip).filter (fun k => !k.isEmpty)

/-- validate_api_key_source: classify a source as file or inline string,
checking existence, readability and inline key plausibility. -/
def validate_api_key_source (fs : SysFS) (source : Str) : ValRes :=
  if pyStrip source = [] then ⟨false, .str, [], [.emptySource]⟩
  else
    let s := pyStrip source
    if fs.pathExists s then
      if fs.isFile s then
        match fs.readFile s with
        | some lines =>
            if (parse_file_lines lines).length = 0 then
              ⟨true, .file s, [.noKeysInFile], []⟩
            else ⟨true, .file s, [], []⟩
        | none => ⟨false, .file s, [], [.cannotReadFile]⟩
      else ⟨false, .str, [], [.existsNotAFile]⟩
    else
      if looks_like_path s then ⟨false, .str, [], [.missingPathLike]⟩
      else
        let keys := parse_key_string s
        if keys = [] then ⟨false, .str, [], [.noKeysInString]⟩
        else
          ⟨true, .str,
            (keys.filter (fun k => k.length < 8)).map .shortKey ++
              (keys.filter (fun k => 200 < k.length)).map .longKey, []⟩

/-! ## core/api_key_manager.py -/

/-- APIKeyManager read of a key file: one key per stripped, non-empty,
non-comment line; an IO failure is caught and yields the keys collected so
far, which for an open failure is the empty set. -/
def read_keys_from_file (fs : SysFS) (p : Str) : List Str :=
  match fs.readFile p with
  | some lines => parse_file_lines lines
  | none => []

/-- APIKeyManager.load_keys: empty source gives the empty set; otherwise the
source is validated, an invalid source raises (Except.error), a file source
is read from disk and an inline source is parsed as comma-separated keys.
The cache write performed for file sources does not influence the returned
set, so load_keys is a function of the filesystem and the source. -/
def load_keys (fs : SysFS) (source : Str) : Except (List KeyErr) (List Str) :=
  if source = [] ∨ pyStrip source = [] then .ok []
  else
    let v := validate_api_key_source fs source
    if v.valid then
      match v.vtype with
      | .file p => .ok (read_keys_from_file fs p)
      | .str => .ok (parse_key_string source)
    else .error v.errors

/-- The key set a source denotes when it loads successfully. -/
def okKeys (fs : SysFS) (s : Str) : List Str :=
  match load_keys fs s with
  | .ok l => l
  | .error _ => []

/-- APIKeyManager.validate_key loop over the supplied sources: falsy sources
are skipped, each remaining source is loaded (propagating a load failure),
and the first source whose key set holds the key returns true. -/
def validate_key_go (fs : SysFS) (k : Str) : List Str → Except (List KeyErr) Bool
  | [] => .ok false
  | s :: rest =>
      if s = [] then validate_key_go fs k rest
      else
        match load_keys fs s with
        | .error e => .error e
        | .ok keys => if k ∈ keys then .ok true else validate_key_go fs k rest

/-- APIKeyManager.validate_key: false for an empty key, else the source
loop. -/
def validate_key (fs : SysFS) (k : Str) (sources : List Str) :
    Except (List KeyErr) Bool :=
  if k = [] then .ok false else validate_key_go fs k sources

/-- Update of a Python dict entry: replace in place if the key is present,
append otherwise. -/
def setEntry {α β : Type} [DecidableEq α] :
    List (α × β) → α → β → List (α × β)
  | [], k, v => [(k, v)]
  | (k0, v0) :: rest, k, v =>
      if k0 = k then (k, v) :: rest else (k0, v0) :: setEntry rest k v

/-- Cache key used by APIKeyManager for a watched file. -/
def file_key (p : Str) : Str := ['f', 'i', 'l', 'e', ':'] ++ p

/-- APIKeyManager.reload_file: when the path has a cached entry, re-read the
file and store the result (which is the empty set when the read fails). -/
def reload_file (fs : SysFS) (cache : List (Str × List Str)) (p : Str) :
    List (Str × List Str) :=
  if (cache.lookup (file_key p)).isSome then
    setEntry cache (file_key p) (read_keys_from_file fs p)
  else cache

/-! ## core/rate_limiter.py : RateLimiter -/

/-- Rate limiter state: the per-identifier timestamp buckets (a dict, kept
as an association list in insertion order) and the time of the last global
cleanup. -/
structure RLState where
  requests : List (String × List Int)
  lastCleanup : Int
deriving DecidableEq

/-- Timestamp bucket of an identifier; a missing key reads as the empty
list (defaultdict). -/
def bucket (l : List (String × List Int)) (id : String) : List Int :=
  (l.lookup id).getD []

/-- RateLimiter cleanup of old entries: runs only when 60 seconds passed
since the last cleanup; drops timestamps at least 60 seconds old from every
bucket and deletes empty buckets. -/
def rl_cleanup (st : RLState) (now : Int) : RLState :=
  if now - st.lastCleanup < 60 then st
  else
    ⟨(st.requests.map fun p =>
        (p.1, p.2.filter fun ts => decide (now - 60 < ts))).filter
        (fun p => !p.2.isEmpty),
      now⟩

/-- Timestamps of the identifier retained in the current window at a
check. -/
def rl_kept (st : RLState) (identifier : String) (window now : Int) :
    List Int :=
  (bucket (rl_cleanup st now).requests identifier).filter
    (fun ts => decide (now - window < ts))

/-- RateLimiter.check_rate_limit: opportunistic cleanup, prune the bucket to
the window, deny with the oldest retained timestamp plus the window when the
pruned count reaches the limit, else append now and allow.  The indexing of
the oldest retained timestamp is a head access modelled as Option: none is
the IndexError raised on an empty list. -/
def check_rate_limit (st : RLState) (identifier : String)
    (limit window now : Int) : Option ((Bool × Int × Int) × RLState) :=
  let st1 := rl_cleanup st now
  let kept := rl_kept st identifier window now
  if limit ≤ (kept.length : Int) then
    match kept with
    | [] => none
    | t0 :: _ =>
        some ((false, 0, t0 + window),
          ⟨setEntry st1.requests identifier kept, st1.lastCleanup⟩)
  else
    let upd := kept ++ [now]
    some ((true, max 0 (limit - (upd.length : Int)), now + window),
      ⟨setEntry st1.requests identifier upd, st1.lastCleanup⟩)

/-! ## Responses, error bodies and middleware -/

/-- JSON error payload shape used across the system; absent fields are
none. Details values in the repository are integers. -/
structure ErrorBody where
  message : String
  status_code : Int
  error_code : Option String
  request_id : Option String
  details : Option (List (String × Int))
deriving DecidableEq

/-- Body of an HTTP response: a structured error document or opaque inner
content produced by the stages inside a middleware. -/
inductive RespBody
  | errorJson (b : ErrorBody)
  | content (tag : Int)
deriving DecidableEq

/-- HTTP response as the middleware observes it. -/
structure Response where
  status : Int
  headers : List (String × String)
  body : RespBody
deriving DecidableEq

/-- Settings fields consumed by RateLimitMiddleware.dispatch. -/
structure Settings where
  rate_limit_enabled : Bool
  rate_limit_per_minute : Int
  rate_limit_per_minute_authenticated : Int

/-- Body of the 429 response built by RateLimitMiddleware.dispatch. -/
def rate_limit_429_body (limit reset : Int) : ErrorBody :=
  ⟨"Rate limit exceeded", 429, none, none,
    some [("limit", limit), ("reset_time", reset)]⟩

/-- The 429 JSONResponse of RateLimitMiddleware.dispatch, including its
explicit rate-limit headers. -/
def rate_limit_429_response (limit reset : Int) : Response :=
  ⟨429,
    [("X-RateLimit-Limit", toString limit),
      ("X-RateLimit-Remaining", "0"),
      ("X-RateLimit-Reset", toString reset)],
    .errorJson (rate_limit_429_body limit reset)⟩

/-- Rate-limit headers appended to a response returned by the inner
chain. -/
def with_rl_headers (r : Response) (limit remaining reset : Int) : Response :=
  { r with
    headers := r.headers ++
      [("X-RateLimit-Limit", toString limit),
        ("X-RateLimit-Remaining", toString remaining),
        ("X-RateLimit-Reset", toString reset)] }

/-- Identifier resolution of RateLimitMiddleware.dispatch: the API key
qualified with a marker when a credential header is present, else the
client address. -/
def rl_identifier (clientHost : String) (apiKey : Option String) : String :=
  match apiKey with
  | some k => "api_key:" ++ k
  | none => clientHost

/-- Limit band resolution of RateLimitMiddleware.dispatch. -/
def rl_limit (s : Settings) (apiKey : Option String) : Int :=
  if apiKey.isSome then s.rate_limit_per_minute_authenticated
  else s.rate_limit_per_minute

/-- RateLimitMiddleware.dispatch: skip when disabled; resolve identifier and
limit; check the limiter; run the inner chain and append rate-limit headers;
when denied, discard the inner response and return the 429 JSONResponse.
The inner chain's response is the inner argument; none propagates a limiter
exception. -/
def rate_limit_dispatch (s : Settings) (st : RLState) (clientHost : String)
    (apiKey : Option String) (now : Int) (inner : Response) :
    Option (Response × RLState) :=
  if !s.rate_limit_enabled then some (inner, st)
  else
    match check_rate_limit st (rl_identifier clientHost apiKey)
        (rl_limit s apiKey) 60 now with
    | none => none
    | some ((allowed, remaining, reset), st2) =>
        let resp := with_rl_headers inner (rl_limit s apiKey) remaining reset
        if !allowed then
          some (rate_limit_429_response (rl_limit s apiKey) reset, st2)
        else some (resp, st2)

/-- Request size ceiling of RequestValidationMiddleware. -/
def MAX_REQUEST_SIZE : Int := 10 * 1024 * 1024

/-- Body of the 413 response of RequestValidationMiddleware.dispatch. -/
def request_too_large_body (size : Int) : ErrorBody :=
  ⟨"Request entity too large", 413, some "ERR_413", none,
    some [("max_size", MAX_REQUEST_SIZE), ("requested_size", size)]⟩

/-- RequestValidationMiddleware.dispatch size gate: reject with 413 when the
declared content length exceeds the ceiling, else pass through (the
content-type branch only warns). -/
def request_validation_dispatch (contentLength : Option Int)
    (inner : Response) : Response :=
  match contentLength with
  | some size =>
      if MAX_REQUEST_SIZE < size then
        ⟨413, [], .errorJson (request_too_large_body size)⟩
      else inner
  | none => inner

/-- Fields of an APIError exception reaching the app-level handler. -/
structure APIErrorInfo where
  message : String
  status_code : Int
  error_code : String
  details : Option (List (String × Int))

/-- Body built by the app-level APIError handler. -/
def api_error_body (e : APIErrorInfo) (request_id : String) : ErrorBody :=
  ⟨e.message, e.status_code, some e.error_code, some request_id, e.details⟩

/-- App-level APIError handler response. -/
def api_exception_handler (e : APIErrorInfo) (request_id : String) :
    Response :=
  ⟨e.status_code, [], .errorJson (api_error_body e request_id)⟩

/-- Body built by the app-level generic exception handler. -/
def internal_error_body (request_id : String) : ErrorBody :=
  ⟨"Internal server error", 500, none, some request_id, none⟩

/-- App-level generic exception handler response. -/
def general_exception_handler (request_id : String) : Response :=
  ⟨500, [], .errorJson (internal_error_body request_id)⟩

/-! ## config/endpoint_config.py and core/router_factory.py -/

/-- HTTP methods supported by endpoint declarations. -/
inductive HTTPMethod
  | GET | POST | PUT | DELETE | PATCH
deriving DecidableEq

/-- Endpoint declaration fields the dynamic route engine consumes. -/
structure EndpointConfig where
  path : String
  method : HTTPMethod
  service : String
  enabled : Bool
  requires_auth : Bool
  api_keys : Option String
deriving DecidableEq

/-- The (path, method) pairs of the enabled declarations, in order. -/
def enabled_path_methods (v : List EndpointConfig) :
    List (String × HTTPMethod) :=
  (v.filter fun e => e.enabled).map fun e => (e.path, e.method)

/-- EndpointsConfig.validate_endpoints: reject the list when the enabled
(path, method) pairs repeat, reporting the duplicated pairs. -/
def validate_endpoints (v : List EndpointConfig) :
    Except (List (String × HTTPMethod)) (List EndpointConfig) :=
  let pms := enabled_path_methods v
  if pms.length = pms.dedup.length then .ok v
  else .error (pms.filter fun pm => 1 < pms.count pm)

/-- Parsed endpoints document. -/
structure EndpointsConfig where
  endpoints : List EndpointConfig

/-- load_endpoints_config on a present document: pydantic construction runs
validate_endpoints and raises on failure. -/
def load_endpoints_config (decls : List EndpointConfig) :
    Except (List (String × HTTPMethod)) EndpointsConfig :=
  (validate_endpoints decls).map EndpointsConfig.mk

/-! ## core/services registry -/

/-- Python str.lower on one character, for the ASCII names the registry
uses. -/
def pyLowerChar (c : Char) : Char :=
  if 'A' ≤ c ∧ c ≤ 'Z' then Char.ofNat (c.toNat + 32) else c

/-- Python str.lower on a name. -/
def pyLower (s : String) : String := ⟨s.data.map pyLowerChar⟩

/-- The service registry dict, keyed by lowercased name. -/
abbrev ServiceRegistry (H : Type) := String → Option H

/-- register_service: store the class under the lowercased name,
overwriting any previous entry. -/
def register_service {H : Type} (reg : ServiceRegistry H) (name : String)
    (service_class : H) : ServiceRegistry H :=
  fun n => if n = pyLower name then some service_class else reg n

/-- get_service: look up the lowercased name. -/
def get_service {H : Type} (reg : ServiceRegistry H) (name : String) :
    Option H :=
  reg (pyLower name)

/-- DynamicRouter.register_endpoint: skip disabled declarations, skip (with
a warning) declarations whose service is not registered, otherwise add the
(method, path) route to the application.  The route table the application
accumulates is the list of registered (method, path) pairs. -/
def register_endpoint {H : Type} (reg : ServiceRegistry H)
    (routes : List (HTTPMethod × String)) (c : EndpointConfig) :
    List (HTTPMethod × String) :=
  if !c.enabled then routes
  else
    match get_service reg c.service with
    | none => routes
    | some _ => routes ++ [(c.method, c.path)]

/-- DynamicRouter.load_and_register: load the configuration — a validation
failure is caught, logged and registers nothing — then register each
declaration in order. -/
def load_and_register {H : Type} (reg : ServiceRegistry H)
    (decls : List EndpointConfig) : List (HTTPMethod × String) :=
  match load_endpoints_config decls with
  | .error _ => []
  | .ok cfg => cfg.endpoints.foldl (register_endpoint reg) []

/-! ## Properties shared by the credential claims -/

/-- A key string valid for inline use: non-empty, already stripped, with no
comma, no path separator and no recognised key-file suffix. -/
def goodKey (k : Str) : Prop :=
  k ≠ [] ∧ pyStrip k = k ∧ ',' ∉ k ∧ '/' ∉ k ∧
    ends_with k txtSfx = false ∧ ends_with k keySfx = false

instance goodKey_decidable (k : Str) : Decidable (goodKey k) := by
  unfold goodKey
  infer_instance

/-- A padded form of a key: the key surrounded by whitespace on either
side. -/
def padRel (p k : Str) : Prop :=
  ∃ w1 w2, (∀ c ∈ w1, isSpc c = true) ∧ (∀ c ∈ w2, isSpc c = true) ∧
    p = w1 ++ k ++ w2

deriving instance DecidableEq for Except

/-! ## Helper lemmas -/

/-- Python strip is the trailing strip of the leading strip. -/
theorem pyStrip_eq (l : Str) : pyStrip l = stripTail (l.dropWhile isSpc) := rfl

/-- Dropping leading whitespace skips over an all-whitespace block. -/
theorem dropWhile_ws {w x : Str} (hw : ∀ c ∈ w, isSpc c = true) :
    (w ++ x).dropWhile isSpc = x.dropWhile isSpc := by
  have h1 : w.dropWhile isSpc = [] := List.dropWhile_eq_nil_iff.mpr hw
  rw [List.dropWhile_append, h1]
  simp

/-- Dropping leading whitespace stops at a non-whitespace head. -/
theorem dropWhile_nonspc {a : Char} {x : Str} (h : isSpc a = false) :
    (a :: x).dropWhile isSpc = a :: x := by
  simp [List.dropWhile_cons, h]

/-- Dropping leading whitespace distributes over an append whose left part
survives. -/
theorem dropWhile_append_left {x y : Str} (h : x.dropWhile isSpc ≠ []) :
    (x ++ y).dropWhile isSpc = x.dropWhile isSpc ++ y := by
  rw [List.dropWhile_append]
  simp [List.isEmpty_iff, h]

/-- A list equal to its own strip equals its own one-sided strips. -/
theorem stripped_of_eq {k : Str} (h : pyStrip k = k) :
    k.dropWhile isSpc = k ∧ k.reverse.dropWhile isSpc = k.reverse := by
  have hsub1 : List.Sublist (k.dropWhile isSpc) k := List.dropWhile_sublist _
  have hlen : ((k.dropWhile isSpc).reverse.dropWhile isSpc).length ≤
      (k.dropWhile isSpc).length := by
    have := (List.dropWhile_sublist (l := (k.dropWhile isSpc).reverse)
      isSpc).length_le
    simpa using this
  have hklen : (pyStrip k).length = k.length := by rw [h]
  have hlen2 : (pyStrip k).length ≤ (k.dropWhile isSpc).length := by
    unfold pyStrip
    simpa using hlen
  have hd1 : k.dropWhile isSpc = k :=
    hsub1.eq_of_length (le_antisymm hsub1.length_le (by omega))
  refine ⟨hd1, ?_⟩
  have h2 : ((k.reverse.dropWhile isSpc)).reverse = k := by
    have := h
    unfold pyStrip at this
    rwa [hd1] at this
  have := congrArg List.reverse h2
  simpa using this

/-- A non-empty list equal to its own leading strip has a non-whitespace
head. -/
theorem head_nonspc {k : Str} (h : k.dropWhile isSpc = k) (hne : k ≠ []) :
    ∃ a t, k = a :: t ∧ isSpc a = false := by
  cases k with
  | nil => exact absurd rfl hne
  | cons a t =>
      refine ⟨a, t, rfl, ?_⟩
      cases hsp : isSpc a with
      | false => rfl
      | true =>
          exfalso
          rw [List.dropWhile_cons, hsp] at h
          simp only [if_true] at h
          have hle := (List.dropWhile_sublist (l := t) isSpc).length_le
          have := congrArg List.length h
          simp at this
          omega

/-- Stripping a key padded with whitespace on both sides recovers the
key. -/
theorem strip_pad {w1 w2 k : Str} (hw1 : ∀ c ∈ w1, isSpc c = true)
    (hw2 : ∀ c ∈ w2, isSpc c = true) (hk : pyStrip k = k) (hne : k ≠ []) :
    pyStrip (w1 ++ k ++ w2) = k := by
  obtain ⟨d1, d2⟩ := stripped_of_eq hk
  obtain ⟨a, t, hat, hag⟩ := head_nonspc d1 hne
  obtain ⟨b, u, hbu, hbg⟩ := head_nonspc d2 (by simpa using hne)
  have e1 : (w1 ++ (k ++ w2)).dropWhile isSpc = k ++ w2 := by
    rw [dropWhile_ws hw1, hat, List.cons_append, dropWhile_nonspc hag,
      ← List.cons_append, ← hat]
  have e2 : (k ++ w2).reverse.dropWhile isSpc = k.reverse := by
    rw [List.reverse_append,
      dropWhile_ws (by intro c hc; exact hw2 c (List.mem_reverse.mp hc)),
      hbu, dropWhile_nonspc hbg, ← hbu]
  unfold pyStrip
  rw [List.append_assoc, e1, e2, List.reverse_reverse]

/-- Python split never returns an empty list of segments. -/
theorem pySplit_ne_nil (sep : Char) (l : Str) : pySplit sep l ≠ [] := by
  induction l with
  | nil => simp [pySplit]
  | cons c rest ih =>
      unfold pySplit
      by_cases h : c = sep
      · simp [h]
      · cases hs : pySplit sep rest with
        | nil => simp [h]
        | cons r rs => simp [h]

/-- Python split of a separator-free string is that string alone. -/
theorem pySplit_no_sep {sep : Char} {s : Str} (h : sep ∉ s) :
    pySplit sep s = [s] := by
  induction s with
  | nil => rfl
  | cons c rest ih =>
      have hc : ¬ c = sep := fun hh =>
        h (hh ▸ List.mem_cons_self c rest)
      have hr : pySplit sep rest = [rest] :=
        ih fun hm => h (List.mem_cons_of_mem c hm)
      unfold pySplit
      rw [if_neg hc, hr]

/-- Python split peels a separator-free segment before a separator. -/
theorem pySplit_append {sep : Char} {s t : Str} (h : sep ∉ s) :
    pySplit sep (s ++ sep :: t) = s :: pySplit sep t := by
  induction s with
  | nil =>
      simp [pySplit]
  | cons c s1 ih =>
      have hc : ¬ c = sep := fun hh =>
        h (hh ▸ List.mem_cons_self c s1)
      have hr := ih fun hm => h (List.mem_cons_of_mem c hm)
      rw [List.cons_append]
      conv_lhs => rw [pySplit]
      rw [if_neg hc, hr]

/-- Python split of a separator join recovers the segments when no segment
holds the separator. -/
theorem pySplit_joinSep {sep : Char} {segs : List Str} (hne : segs ≠ [])
    (h : ∀ p ∈ segs, sep ∉ p) :
    pySplit sep (joinSep sep segs) = segs := by
  induction segs with
  | nil => exact absurd rfl hne
  | cons s rest ih =>
      cases rest with
      | nil => exact pySplit_no_sep (h s (List.mem_cons_self s []))
      | cons r rs =>
          show pySplit sep (s ++ sep :: joinSep sep (r :: rs)) = _
          rw [pySplit_append (h s (List.mem_cons_self s (r :: rs)))]
          rw [ih (by simp) fun p hp => h p (List.mem_cons_of_mem s hp)]

/-- Looking up the key just written by a dict update yields the written
value. -/
theorem lookup_setEntry {α β : Type} [DecidableEq α] [BEq α] [LawfulBEq α]
    (l : List (α × β)) (k : α) (v : β) :
    (setEntry l k v).lookup k = some v := by
  induction l with
  | nil => simp [setEntry, List.lookup]
  | cons p rest ih =>
      obtain ⟨k0, v0⟩ := p
      by_cases h : k0 = k
      · subst h
        simp [setEntry, List.lookup]
      · have hb : (k == k0) = false := beq_eq_false_iff_ne.mpr (Ne.symm h)
        simp [setEntry, h, List.lookup, ih, hb]

/-- Join of a cons with a non-empty tail. -/
theorem joinSep_cons_cons (sep : Char) (s r : Str) (rs : List Str) :
    joinSep sep (s :: r :: rs) = s ++ sep :: joinSep sep (r :: rs) := rfl

/-- Join of a list with a final segment appended. -/
theorem joinSep_snoc {sep : Char} {l : List Str} (x : Str) (h : l ≠ []) :
    joinSep sep (l ++ [x]) = joinSep sep l ++ sep :: x := by
  induction l with
  | nil => exact absurd rfl h
  | cons s rest ih =>
      cases rest with
      | nil => rfl
      | cons r rs =>
          have ihh := ih (by simp)
          simp only [List.cons_append] at ihh ⊢
          rw [joinSep_cons_cons, ihh, joinSep_cons_cons sep s r rs,
            List.append_assoc]
          simp

/-- A character of a join is the separator or lies in some segment. -/
theorem mem_joinSep {sep c : Char} {segs : List Str}
    (h : c ∈ joinSep sep segs) : c = sep ∨ ∃ p ∈ segs, c ∈ p := by
  induction segs with
  | nil => exact absurd h (List.not_mem_nil c)
  | cons s rest ih =>
      cases rest with
      | nil => exact Or.inr ⟨s, List.mem_cons_self s [], h⟩
      | cons r rs =>
          rw [joinSep_cons_cons] at h
          rcases List.mem_append.mp h with hs | hrest
          · exact Or.inr ⟨s, List.mem_cons_self s (r :: rs), hs⟩
          · rcases List.mem_cons.mp hrest with hcsep | hj
            · exact Or.inl hcsep
            · rcases ih hj with hcsep | ⟨p, hp, hcp⟩
              · exact Or.inl hcsep
              · exact Or.inr ⟨p, List.mem_cons_of_mem s hp, hcp⟩

/-- A character of a segment lies in the join. -/
theorem mem_seg_joinSep {sep c : Char} {p : Str} {segs : List Str}
    (hp : p ∈ segs) (hc : c ∈ p) : c ∈ joinSep sep segs := by
  induction segs with
  | nil => exact absurd hp (List.not_mem_nil p)
  | cons s rest ih =>
      cases rest with
      | nil =>
          rcases List.mem_cons.mp hp with h | h
          · exact h ▸ hc
          · exact absurd h (List.not_mem_nil p)
      | cons r rs =>
          rw [joinSep_cons_cons]
          rcases List.mem_cons.mp hp with h | h
          · exact List.mem_append.mpr (Or.inl (h ▸ hc))
          · exact List.mem_append.mpr
              (Or.inr (List.mem_cons_of_mem sep (ih h)))

/-- Trailing strip removes an all-whitespace suffix when the base keeps its
own trailing strip. -/
theorem stripTail_append_ws {z w : Str} (hw : ∀ c ∈ w, isSpc c = true)
    (hz : z.reverse.dropWhile isSpc = z.reverse) :
    stripTail (z ++ w) = z := by
  unfold stripTail
  rw [List.reverse_append,
    dropWhile_ws (by intro c hc; exact hw c (List.mem_reverse.mp hc)), hz,
    List.reverse_reverse]

/-- Trailing strip distributes over an append whose right part keeps a
non-whitespace character. -/
theorem stripTail_append_left {x y : Str} (h : stripTail y ≠ []) :
    stripTail (x ++ y) = x ++ stripTail y := by
  have hy : y.reverse.dropWhile isSpc ≠ [] := by
    intro hh
    apply h
    unfold stripTail
    rw [hh]
    rfl
  unfold stripTail
  rw [List.reverse_append, dropWhile_append_left hy, List.reverse_append,
    List.reverse_reverse]

/-- Python endswith agrees with the suffix relation. -/
theorem ends_with_iff {l sfx : Str} :
    ends_with l sfx = true ↔ ∃ t, t ++ sfx = l := by
  constructor
  · intro h
    have he : l.drop (l.length - sfx.length) = sfx := by
      have := h
      unfold ends_with at this
      exact beq_iff_eq.mp this
    refine ⟨l.take (l.length - sfx.length), ?_⟩
    conv_rhs => rw [← List.take_append_drop (l.length - sfx.length) l]
    rw [he]
  · rintro ⟨t, rfl⟩
    unfold ends_with
    have hlen : (t ++ sfx).length - sfx.length = t.length := by
      simp
    rw [hlen, List.drop_left]
    exact beq_self_eq_true sfx

/-- A suffix of an append is a suffix of the right part or extends it past
the boundary. -/
theorem suffix_append_cases {sfx b kn : Str} (h : ∃ t, t ++ sfx = b ++ kn) :
    (∃ t, t ++ sfx = kn) ∨
      ∃ s1, s1 ≠ [] ∧ sfx = s1 ++ kn ∧ ∃ t2, t2 ++ s1 = b := by
  obtain ⟨t, ht⟩ := h
  rcases List.append_eq_append_iff.mp ht with ⟨a2, hb, hs⟩ | ⟨c2, hbt, hk⟩
  · cases a2 with
    | nil =>
        left
        exact ⟨[], by simpa using hs⟩
    | cons x xs =>
        right
        exact ⟨x :: xs, by simp, hs, t, hb.symm⟩
  · left
    exact ⟨c2, hk.symm⟩

/-- No clean suffix can end an append whose boundary ends in a separator or
whitespace, unless it is a suffix of the final segment. -/
theorem ends_with_append_false {sfx b kn : Str}
    (hchars : ∀ c ∈ sfx, isSpc c = false ∧ c ≠ ',')
    (hkn : ends_with kn sfx = false)
    (hb : b = [] ∨ ∃ b0, b.getLast? = some b0 ∧
      (b0 = ',' ∨ isSpc b0 = true)) :
    ends_with (b ++ kn) sfx = false := by
  cases hew : ends_with (b ++ kn) sfx with
  | false => rfl
  | true =>
      exfalso
      rcases suffix_append_cases (ends_with_iff.mp hew) with hsuf | hover
      · rw [ends_with_iff.mpr hsuf] at hkn
        exact Bool.noConfusion hkn
      · obtain ⟨s1, hs1ne, hs1eq, t2, ht2⟩ := hover
        obtain ⟨ys, b0, hys⟩ : ∃ ys b0, s1 = ys ++ [b0] := by
          rcases List.eq_nil_or_concat s1 with h | ⟨l2, b0, hcon⟩
          · exact absurd h hs1ne
          · exact ⟨l2, b0, by simpa [List.concat_eq_append] using hcon⟩
        have hb0sfx : b0 ∈ sfx := by
          rw [hs1eq, hys]
          simp
        have hbne : b ≠ [] := by
          intro hh
          rw [hh] at ht2
          have := List.append_eq_nil.mp ht2
          exact hs1ne this.2
        rcases hb with hb | ⟨b1, hb1, hb1p⟩
        · exact hbne hb
        · have : b.getLast? = some b0 := by
            rw [← ht2, hys, ← List.append_assoc]
            simp
          rw [hb1] at this
          have hbb : b1 = b0 := by
            injection this
          obtain ⟨hns, hnc⟩ := hchars b0 hb0sfx
          rcases hb1p with h1 | h1
          · exact hnc (by rw [← hbb, h1])
          · rw [hbb] at h1
            rw [h1] at hns
            exact Bool.noConfusion hns

/-- Elements on the left of a pointwise relation are related to some
element on the right. -/
theorem forall2_mem_left {α β : Type} {r : α → β → Prop} {l1 : List α}
    {l2 : List β} (h : List.Forall₂ r l1 l2) {p : α} (hp : p ∈ l1) :
    ∃ k ∈ l2, r p k := by
  induction h with
  | nil => exact absurd hp (List.not_mem_nil p)
  | cons hr _ ih =>
      rcases List.mem_cons.mp hp with h1 | h1
      · exact ⟨_, List.mem_cons_self .., h1 ▸ hr⟩
      · obtain ⟨k, hk, hrk⟩ := ih h1
        exact ⟨k, List.mem_cons_of_mem _ hk, hrk⟩

/-- A character of a padded key is whitespace or a character of the key. -/
theorem padRel_mem {p k : Str} {c : Char} (hpk : padRel p k) (hc : c ∈ p) :
    isSpc c = true ∨ c ∈ k := by
  obtain ⟨w1, w2, hw1, hw2, rfl⟩ := hpk
  rcases List.mem_append.mp hc with h1 | h2
  · rcases List.mem_append.mp h1 with ha | hb
    · exact Or.inl (hw1 _ ha)
    · exact Or.inr hb
  · exact Or.inl (hw2 _ h2)

/-- A padded form of a comma-free key holds no comma. -/
theorem padRel_comma {p k : Str} (hpk : padRel p k) (hg : goodKey k) :
    ',' ∉ p := by
  intro hmem
  rcases padRel_mem hpk hmem with h | h
  · exact absurd h (by decide)
  · exact hg.2.2.1 h

/-- Stripping a padded form of a good key recovers the key. -/
theorem padRel_strip {p k : Str} (hpk : padRel p k) (hg : goodKey k) :
    pyStrip p = k := by
  obtain ⟨w1, w2, hw1, hw2, rfl⟩ := hpk
  exact strip_pad hw1 hw2 hg.2.1 hg.1

/-- Mapping strip over padded forms recovers the keys. -/
theorem map_pyStrip_forall2 {padded keys : List Str}
    (hF : List.Forall₂ padRel padded keys)
    (hg : ∀ k ∈ keys, goodKey k) : padded.map pyStrip = keys := by
  induction hF with
  | nil => rfl
  | @cons p k ps ks hr _ ih =>
      have hgk := hg k (List.mem_cons_self k ks)
      have hgrest : ∀ x ∈ ks, goodKey x := fun x hx =>
        hg x (List.mem_cons_of_mem _ hx)
      simp [padRel_strip hr hgk, ih hgrest]

/-- Parsing the comma join of padded good keys yields exactly the keys. -/
theorem parse_joinSep {padded keys : List Str}
    (hF : List.Forall₂ padRel padded keys)
    (hg : ∀ k ∈ keys, goodKey k) (hne : padded ≠ []) :
    parse_key_string (joinSep ',' padded) = keys := by
  have hnosep : ∀ p ∈ padded, ',' ∉ p := by
    intro p hp
    obtain ⟨k, hk, hr⟩ := forall2_mem_left hF hp
    exact padRel_comma hr (hg k hk)
  unfold parse_key_string
  rw [pySplit_joinSep hne hnosep, map_pyStrip_forall2 hF hg]
  apply List.filter_eq_self.mpr
  intro a ha
  simp [List.isEmpty_iff, (hg a ha).1]

/-- The leading strip of a comma join removes exactly the first pad's
leading whitespace. -/
theorem dropWhile_joinSep {w1 k1 w1' : Str} {prest : List Str}
    (hw1 : ∀ c ∈ w1, isSpc c = true) (hk1 : pyStrip k1 = k1)
    (hne : k1 ≠ []) :
    (joinSep ',' ((w1 ++ k1 ++ w1') :: prest)).dropWhile isSpc =
      joinSep ',' ((k1 ++ w1') :: prest) := by
  obtain ⟨a, t, hat, hag⟩ := head_nonspc (stripped_of_eq hk1).1 hne
  cases prest with
  | nil =>
      show (w1 ++ k1 ++ w1').dropWhile isSpc = k1 ++ w1'
      simp only [List.append_assoc]
      rw [dropWhile_ws hw1, hat]
      simp only [List.cons_append]
      rw [dropWhile_nonspc hag]
  | cons r rs =>
      rw [joinSep_cons_cons, joinSep_cons_cons]
      simp only [List.append_assoc]
      rw [dropWhile_ws hw1, hat]
      simp only [List.cons_append]
      rw [dropWhile_nonspc hag]

/-- The trailing strip of a comma join removes exactly the last pad's
trailing whitespace, leaving a join of padded forms whose last segment is
the whitespace-prefixed final key. -/
theorem stripTail_joinSep {prest krest : List Str}
    (hF : List.Forall₂ padRel prest krest)
    (hg : ∀ k ∈ krest, goodKey k) (hne : prest ≠ []) :
    ∃ padded2, stripTail (joinSep ',' prest) = joinSep ',' padded2 ∧
      List.Forall₂ padRel padded2 krest ∧
      ∃ front wn kn, (∀ c ∈ wn, isSpc c = true) ∧
        krest.getLast? = some kn ∧ padded2 = front ++ [wn ++ kn] := by
  induction hF with
  | nil => exact absurd rfl hne
  | @cons p k ps ks hr hrest ih =>
      cases hrest with
      | nil =>
          have hgk := hg k (List.mem_cons_self k [])
          obtain ⟨w1, w2, hw1, hw2, rfl⟩ := hr
          obtain ⟨b, u, hbu, hbg⟩ :=
            head_nonspc (stripped_of_eq hgk.2.1).2 (by simpa using hgk.1)
          have hz : (w1 ++ k).reverse.dropWhile isSpc = (w1 ++ k).reverse := by
            rw [List.reverse_append, hbu]
            simp only [List.cons_append]
            rw [dropWhile_nonspc hbg]
          refine ⟨[w1 ++ k], ?_, ?_, [], w1, k, hw1, rfl, by simp⟩
          · show stripTail ((w1 ++ k) ++ w2) = joinSep ',' [w1 ++ k]
            rw [stripTail_append_ws hw2 hz]
            rfl
          · exact List.Forall₂.cons ⟨w1, [], hw1, by simp, by simp⟩
              List.Forall₂.nil
      | @cons q l qs ls hq hqs =>
          have hgrest : ∀ x ∈ l :: ls, goodKey x := fun x hx =>
            hg x (List.mem_cons_of_mem _ hx)
          obtain ⟨padded2, heq, hF2, front, wn, kn, hwn, hlast, hp2⟩ :=
            ih hgrest (by simp)
          have hkn_mem : kn ∈ l :: ls := List.mem_of_getLast?_eq_some hlast
          have hkng := hgrest kn hkn_mem
          obtain ⟨a, t, hat, _⟩ :=
            head_nonspc (stripped_of_eq hkng.2.1).1 hkng.1
          have hjoin_ne : joinSep ',' padded2 ≠ [] :=
            List.ne_nil_of_mem (mem_seg_joinSep (c := a) (p := wn ++ kn)
              (by rw [hp2]; simp)
              (List.mem_append.mpr (Or.inr
                (by rw [hat]; exact List.mem_cons_self a t))))
          have hstr_ne : stripTail (joinSep ',' (q :: qs)) ≠ [] := by
            rw [heq]
            exact hjoin_ne
          refine ⟨p :: padded2, ?_, List.Forall₂.cons hr hF2,
            p :: front, wn, kn, hwn, ?_, by rw [hp2]; rfl⟩
          · rw [joinSep_cons_cons]
            have hsplit : p ++ ',' :: joinSep ',' (q :: qs) =
                (p ++ [',']) ++ joinSep ',' (q :: qs) := by
              simp
            rw [hsplit, stripTail_append_left hstr_ne, heq]
            cases hcp : padded2 with
            | nil =>
                rw [hcp] at hjoin_ne
                exact absurd rfl hjoin_ne
            | cons z zs =>
                rw [joinSep_cons_cons]
                simp
          · rw [List.getLast?_cons_cons]
            exact hlast

/-- Stripping a comma join of padded good keys yields a comma join of
padded forms of the same keys whose last segment is the whitespace-prefixed
final key. -/
theorem strip_joinSep_struct {padded keys : List Str}
    (hF : List.Forall₂ padRel padded keys)
    (hg : ∀ k ∈ keys, goodKey k) (hne : padded ≠ []) :
    ∃ padded2, pyStrip (joinSep ',' padded) = joinSep ',' padded2 ∧
      List.Forall₂ padRel padded2 keys ∧
      ∃ front wn kn, (∀ c ∈ wn, isSpc c = true) ∧
        keys.getLast? = some kn ∧ padded2 = front ++ [wn ++ kn] := by
  cases hF with
  | nil => exact absurd rfl hne
  | @cons p k ps ks hr hrest =>
      obtain ⟨w1, w2, hw1, hw2, rfl⟩ := hr
      have hgk := hg k (List.mem_cons_self k ks)
      rw [pyStrip_eq, dropWhile_joinSep hw1 hgk.2.1 hgk.1]
      exact stripTail_joinSep
        (List.Forall₂.cons ⟨[], w2, by simp, hw2, rfl⟩ hrest) hg (by simp)

/-- A comma join of padded good keys whose last segment is the
whitespace-prefixed final key does not look like a path. -/
theorem not_path_joinSep {padded2 keys front : List Str} {wn kn : Str}
    (hF2 : List.Forall₂ padRel padded2 keys)
    (hg : ∀ k ∈ keys, goodKey k)
    (hwn : ∀ c ∈ wn, isSpc c = true) (hkng : goodKey kn)
    (hp2 : padded2 = front ++ [wn ++ kn]) :
    looks_like_path (joinSep ',' padded2) = false := by
  have hcontains : (joinSep ',' padded2).contains '/' = false := by
    by_cases hmem : '/' ∈ joinSep ',' padded2
    · exfalso
      rcases mem_joinSep hmem with h | ⟨p, hp, hcp⟩
      · exact absurd h (by decide)
      · obtain ⟨k, hk, hr⟩ := forall2_mem_left hF2 hp
        rcases padRel_mem hr hcp with h1 | h1
        · exact absurd h1 (by decide)
        · exact (hg k hk).2.2.2.1 h1
    · simpa using hmem
  have hends : ∀ sfx : Str, (∀ c ∈ sfx, isSpc c = false ∧ c ≠ ',') →
      ends_with kn sfx = false →
      ends_with (joinSep ',' padded2) sfx = false := by
    intro sfx hchars hknf
    subst hp2
    cases front with
    | nil =>
        show ends_with (wn ++ kn) sfx = false
        apply ends_with_append_false hchars hknf
        cases hwn0 : wn with
        | nil => exact Or.inl rfl
        | cons a as =>
            right
            rcases List.eq_nil_or_concat (a :: as) with h | ⟨ys, b0, hcon⟩
            · exact absurd h (by simp)
            · have hwnmem : b0 ∈ wn := by
                rw [hwn0, hcon]
                simp [List.concat_eq_append]
              refine ⟨b0, ?_, Or.inr (hwn b0 hwnmem)⟩
              rw [← hwn0, hwn0, hcon]
              rw [List.concat_eq_append]
              simp
    | cons f fs =>
        rw [joinSep_snoc (wn ++ kn) (by simp)]
        have hshape : joinSep ',' (f :: fs) ++ ',' :: (wn ++ kn) =
            (joinSep ',' (f :: fs) ++ [','] ++ wn) ++ kn := by
          simp
        rw [hshape]
        apply ends_with_append_false hchars hknf
        right
        cases hwn0 : wn with
        | nil =>
            refine ⟨',', ?_, Or.inl rfl⟩
            simp
        | cons a as =>
            rcases List.eq_nil_or_concat (a :: as) with h | ⟨ys, b0, hcon⟩
            · exact absurd h (by simp)
            · have hwnmem : b0 ∈ wn := by
                rw [hwn0, hcon]
                simp [List.concat_eq_append]
              refine ⟨b0, ?_, Or.inr (hwn b0 hwnmem)⟩
              rw [hcon, List.concat_eq_append]
              exact List.getLast?_eq_some_iff.mpr
                ⟨joinSep ',' (f :: fs) ++ [','] ++ ys, by simp⟩
  unfold looks_like_path
  rw [hcontains, hends txtSfx (by decide) hkng.2.2.2.2.1,
    hends keySfx (by decide) hkng.2.2.2.2.2]
  rfl

/-- The validator classifies a non-path-shaped inline source with keys as a
valid string source. -/
theorem validate_inline {fs : SysFS} {source : Str} {keys : List Str}
    (hsne : pyStrip source ≠ [])
    (hex : fs.pathExists (pyStrip source) = false)
    (hlk : looks_like_path (pyStrip source) = false)
    (hparse : parse_key_string (pyStrip source) = keys)
    (hkne : keys ≠ []) :
    validate_api_key_source fs source =
      ⟨true, .str,
        (keys.filter (fun k => k.length < 8)).map .shortKey ++
          (keys.filter (fun k => 200 < k.length)).map .longKey, []⟩ := by
  simp [validate_api_key_source, hsne, hex, hlk, hparse, hkne]

/-- Load of a non-path-shaped inline source returns its parsed key set. -/
theorem load_inline {fs : SysFS} {source : Str} {keys : List Str}
    (hsrc : source ≠ []) (hsne : pyStrip source ≠ [])
    (hex : fs.pathExists (pyStrip source) = false)
    (hlk : looks_like_path (pyStrip source) = false)
    (hparse : parse_key_string (pyStrip source) = keys)
    (hkne : keys ≠ []) :
    load_keys fs source = .ok (parse_key_string source) := by
  simp [load_keys, hsrc, hsne,
    validate_inline hsne hex hlk hparse hkne]

/-- Key validation against the comma join of whitespace-padded good keys
accepts exactly the keys of the list. -/
theorem validate_key_comma_join (fs : SysFS) (keys padded : List Str)
    (hkne : keys ≠ []) (hF : List.Forall₂ padRel padded keys)
    (hg : ∀ k ∈ keys, goodKey k)
    (hex : fs.pathExists (pyStrip (joinSep ',' padded)) = false) :
    (∀ k ∈ keys, validate_key fs k [joinSep ',' padded] = .ok true) ∧
      (∀ k, k ∉ keys →
        validate_key fs k [joinSep ',' padded] = .ok false) := by
  have hpne : padded ≠ [] := by
    intro h
    subst h
    cases hF
    exact hkne rfl
  obtain ⟨padded2, hs_eq, hF2, front, wn, kn, hwn, hlast, hp2⟩ :=
    strip_joinSep_struct hF hg hpne
  have hkn_mem : kn ∈ keys := List.mem_of_getLast?_eq_some hlast
  have hkng : goodKey kn := hg kn hkn_mem
  have hp2ne : padded2 ≠ [] := by
    rw [hp2]
    simp
  obtain ⟨a, t, hat, _⟩ := head_nonspc (stripped_of_eq hkng.2.1).1 hkng.1
  have hsne : pyStrip (joinSep ',' padded) ≠ [] := by
    rw [hs_eq]
    exact List.ne_nil_of_mem (mem_seg_joinSep (c := a) (p := wn ++ kn)
      (by rw [hp2]; simp)
      (List.mem_append.mpr (Or.inr
        (by rw [hat]; exact List.mem_cons_self a t))))
  have hlk : looks_like_path (pyStrip (joinSep ',' padded)) = false := by
    rw [hs_eq]
    exact not_path_joinSep hF2 hg hwn hkng hp2
  have hparse_s : parse_key_string (pyStrip (joinSep ',' padded)) = keys := by
    rw [hs_eq]
    exact parse_joinSep hF2 hg hp2ne
  have hparse_src : parse_key_string (joinSep ',' padded) = keys :=
    parse_joinSep hF hg hpne
  have hsrc : joinSep ',' padded ≠ [] := by
    intro h
    apply hsne
    rw [h]
    rfl
  have hload : load_keys fs (joinSep ',' padded) = .ok keys := by
    rw [load_inline hsrc hsne hex hlk hparse_s hkne, hparse_src]
  constructor
  · intro k hk
    simp [validate_key, (hg k hk).1, validate_key_go, hsrc, hload, hk]
  · intro k hk
    by_cases hk0 : k = []
    · simp [validate_key, hk0]
    · simp [validate_key, hk0, validate_key_go, hsrc, hload, hk]

/-- The source loop of validate_key returns true exactly when some
non-empty source's key set holds the key, provided every non-empty source
loads. -/
theorem validate_key_go_iff (fs : SysFS) (k : Str) (sources : List Str)
    (hok : ∀ s ∈ sources, s ≠ [] → (load_keys fs s).isOk = true) :
    (validate_key_go fs k sources = .ok true ↔
      ∃ s ∈ sources, s ≠ [] ∧ k ∈ okKeys fs s) := by
  induction sources with
  | nil => simp [validate_key_go]
  | cons s rest ih =>
      have hok_rest : ∀ t ∈ rest, t ≠ [] → (load_keys fs t).isOk = true :=
        fun t ht => hok t (List.mem_cons_of_mem s ht)
      by_cases hs0 : s = []
      · subst hs0
        have hgo : validate_key_go fs k ([] :: rest) =
            validate_key_go fs k rest := by
          simp [validate_key_go]
        rw [hgo, ih hok_rest]
        constructor
        · rintro ⟨t, ht, htne, htm⟩
          exact ⟨t, List.mem_cons_of_mem [] ht, htne, htm⟩
        · rintro ⟨t, ht, htne, htm⟩
          rcases List.mem_cons.mp ht with h | h
          · exact absurd h htne
          · exact ⟨t, h, htne, htm⟩
      · obtain ⟨keys, hkeys⟩ : ∃ keys, load_keys fs s = .ok keys := by
          have hiso := hok s (List.mem_cons_self s rest) hs0
          cases hl : load_keys fs s with
          | ok ks => exact ⟨ks, rfl⟩
          | error e =>
              rw [hl] at hiso
              exact absurd hiso (by simp [Except.isOk, Except.toBool])
        have hofs : okKeys fs s = keys := by
          unfold okKeys
          rw [hkeys]
        by_cases hmem : k ∈ keys
        · have hgo : validate_key_go fs k (s :: rest) = .ok true := by
            conv_lhs => rw [validate_key_go]
            rw [if_neg hs0, hkeys]
            simp [hmem]
          rw [hgo]
          constructor
          · intro _
            exact ⟨s, List.mem_cons_self s rest, hs0, hofs ▸ hmem⟩
          · intro _
            rfl
        · have hgo : validate_key_go fs k (s :: rest) =
              validate_key_go fs k rest := by
            conv_lhs => rw [validate_key_go]
            rw [if_neg hs0, hkeys]
            simp [hmem]
          rw [hgo, ih hok_rest]
          constructor
          · rintro ⟨t, ht, htne, htm⟩
            exact ⟨t, List.mem_cons_of_mem s ht, htne, htm⟩
          · rintro ⟨t, ht, htne, htm⟩
            rcases List.mem_cons.mp ht with h | h
            · subst h
              rw [hofs] at htm
              exact absurd htm hmem
            · exact ⟨t, h, htne, htm⟩

/-! ## Claim theorems -/

/-- Claim C1 counterexample: with an earlier path-like-but-missing source,
validate_key raises instead of returning, so the claimed equivalence fails
even though the key lies in the second source's parsed key set. -/
theorem validate_key_disjunction_counterexample :
    ¬ (validate_key fsEmpty ['k', '1'] [['a', '/', 'b'], ['k', '1']] =
        .ok true ↔
      ((['k', '1'] : Str) ≠ [] ∧ ∃ s ∈ [(['a', '/', 'b'] : Str), ['k', '1']],
        s ≠ [] ∧ ['k', '1'] ∈ okKeys fsEmpty s)) := by
  decide

/-- Claim C1 (amended): provided every supplied non-empty source loads
without error, validate_key returns true exactly when the key is non-empty
and lies in the key set of some supplied non-empty source; and for a
global source built by comma-joining whitespace-padded valid key strings
that does not exist on disk, validate_key accepts exactly the keys of the
list. -/
theorem validate_key_disjunction_amended :
    (∀ (fs : SysFS) (k : Str) (sources : List Str),
      (∀ s ∈ sources, s ≠ [] → (load_keys fs s).isOk = true) →
      (validate_key fs k sources = .ok true ↔
        (k ≠ [] ∧ ∃ s ∈ sources, s ≠ [] ∧ k ∈ okKeys fs s))) ∧
    (∀ (fs : SysFS) (keys padded : List Str),
      keys ≠ [] → List.Forall₂ padRel padded keys →
      (∀ k ∈ keys, goodKey k) →
      fs.pathExists (pyStrip (joinSep ',' padded)) = false →
      (∀ k ∈ keys, validate_key fs k [joinSep ',' padded] = .ok true) ∧
      (∀ k, k ∉ keys →
        validate_key fs k [joinSep ',' padded] = .ok false)) := by
  constructor
  · intro fs k sources hok
    by_cases hk : k = []
    · subst hk
      simp [validate_key]
    · unfold validate_key
      rw [if_neg hk, validate_key_go_iff fs k sources hok]
      simp [hk]
  · intro fs keys padded hkne hF hg hex
    exact validate_key_comma_join fs keys padded hkne hF hg hex

/-- Claim C1 witness: the equivalence at a loading source, and the
comma-join property for the keys ab and cd padded with spaces. -/
theorem validate_key_disjunction_amended_witness :
    (validate_key fsEmpty ['k', '1'] [['k', '1']] = .ok true ↔
      ((['k', '1'] : Str) ≠ [] ∧ ∃ s ∈ [(['k', '1'] : Str)], s ≠ [] ∧
        ['k', '1'] ∈ okKeys fsEmpty s)) ∧
    (∀ k ∈ [(['a', 'b'] : Str), ['c', 'd']],
      validate_key fsEmpty k
        [joinSep ',' [[' ', 'a', 'b'], ['c', 'd', ' ']]] = .ok true) ∧
    (∀ k, k ∉ [(['a', 'b'] : Str), ['c', 'd']] →
      validate_key fsEmpty k
        [joinSep ',' [[' ', 'a', 'b'], ['c', 'd', ' ']]] = .ok false) :=
  ⟨validate_key_disjunction_amended.1 fsEmpty ['k', '1'] [['k', '1']]
      (by decide),
    (validate_key_disjunction_amended.2 fsEmpty [['a', 'b'], ['c', 'd']]
      [[' ', 'a', 'b'], ['c', 'd', ' ']] (by decide)
      (List.Forall₂.cons ⟨[' '], [], by decide, by decide, rfl⟩
        (List.Forall₂.cons ⟨[], [' '], by decide, by decide, rfl⟩
          List.Forall₂.nil))
      (by decide) rfl).1,
    (validate_key_disjunction_amended.2 fsEmpty [['a', 'b'], ['c', 'd']]
      [[' ', 'a', 'b'], ['c', 'd', ' ']] (by decide)
      (List.Forall₂.cons ⟨[' '], [], by decide, by decide, rfl⟩
        (List.Forall₂.cons ⟨[], [' '], by decide, by decide, rfl⟩
          List.Forall₂.nil))
      (by decide) rfl).2⟩

/-- Claim C7 counterexample: the 429 rate-limit body carries neither an
error_code nor a request_id, and the 413 body carries no request_id, and
the generic 500 body carries no error_code, refuting the claimed uniform
error shape at explicit inputs. -/
theorem error_shape_counterexample :
    (rate_limit_429_body 10 60).error_code = none ∧
      (rate_limit_429_body 10 60).request_id = none ∧
      (request_too_large_body 20000000).request_id = none ∧
      (internal_error_body "req-1").error_code = none :=
  ⟨rfl, rfl, rfl, rfl⟩

/-- Claim C7 (amended): responses from the APIError handler carry message,
status_code, error_code, request_id and the optional details; but the 429
rate-limit body carries neither error_code nor request_id, the 413 body
carries error_code ERR_413 and no request_id, and the generic 500 body
carries request_id and no error_code. -/
theorem error_shape_amended (limit reset size : Int) (rid msg : String)
    (sc : Int) (ec : String) (d : Option (List (String × Int))) :
    (rate_limit_429_body limit reset).message = "Rate limit exceeded" ∧
      (rate_limit_429_body limit reset).status_code = 429 ∧
      (rate_limit_429_body limit reset).error_code = none ∧
      (rate_limit_429_body limit reset).request_id = none ∧
      (rate_limit_429_body limit reset).details =
        some [("limit", limit), ("reset_time", reset)] ∧
      (request_too_large_body size).status_code = 413 ∧
      (request_too_large_body size).error_code = some "ERR_413" ∧
      (request_too_large_body size).request_id = none ∧
      (internal_error_body rid).status_code = 500 ∧
      (internal_error_body rid).error_code = none ∧
      (internal_error_body rid).request_id = some rid ∧
      (api_error_body ⟨msg, sc, ec, d⟩ rid).error_code = some ec ∧
      (api_error_body ⟨msg, sc, ec, d⟩ rid).request_id = some rid ∧
      (api_error_body ⟨msg, sc, ec, d⟩ rid).details = d :=
  ⟨rfl, rfl, rfl, rfl, rfl, rfl, rfl, rfl, rfl, rfl, rfl, rfl, rfl, rfl⟩

/-- Claim C9: the service registry is case-insensitive — a lookup under any
name equal to the registered name up to letter case returns the registered
handler — and a later registration under a case-equal name wins. -/
theorem service_registry_case_insensitive {H : Type}
    (reg : ServiceRegistry H) (n1 n2 m : String) (h1 h2 : H) :
    (pyLower m = pyLower n1 →
      get_service (register_service reg n1 h1) m = some h1) ∧
    (pyLower m = pyLower n2 →
      get_service (register_service (register_service reg n1 h1) n2 h2) m =
        some h2) := by
  constructor <;> intro he <;> simp [get_service, register_service, he]

/-- Claim C9 witness: registering under Crypto and looking up CRYPTO
returns the handler, and a later registration under CRYPTO wins for a
lookup under crypto. -/
theorem service_registry_case_insensitive_witness :
    get_service (register_service (fun _ => (none : Option Nat)) "Crypto" 7)
        "CRYPTO" = some 7 ∧
      get_service (register_service
        (register_service (fun _ => (none : Option Nat)) "Crypto" 7)
        "CRYPTO" 9) "crypto" = some 9 :=
  ⟨(service_registry_case_insensitive (fun _ => none) "Crypto" "x" "CRYPTO"
      7 0).1 (by decide),
    (service_registry_case_insensitive (fun _ => none) "Crypto" "CRYPTO"
      "crypto" 7 9).2 (by decide)⟩

/-- Claim C10: for a positive limit, check_rate_limit always returns a
result (the denial branch's head access is in bounds because denial implies
a non-empty retained list) and the returned remaining is non-negative. -/
theorem check_rate_limit_total (st : RLState) (i : String)
    (limit window now : Int) (hlim : 1 ≤ limit) :
    ∃ allowed remaining reset st2,
      check_rate_limit st i limit window now =
        some ((allowed, remaining, reset), st2) ∧
      0 ≤ remaining ∧
      (allowed = false → rl_kept st i window now ≠ []) := by
  by_cases hle : limit ≤ ((rl_kept st i window now).length : Int)
  · have hne : rl_kept st i window now ≠ [] := by
      intro h
      rw [h] at hle
      simp only [List.length_nil, Nat.cast_zero] at hle
      omega
    cases hk : rl_kept st i window now with
    | nil => exact absurd hk hne
    | cons t0 tl =>
        rw [hk] at hle
        refine ⟨false, 0, t0 + window,
          ⟨setEntry (rl_cleanup st now).requests i (t0 :: tl),
            (rl_cleanup st now).lastCleanup⟩, ?_, le_refl 0,
          fun _ => List.cons_ne_nil t0 tl⟩
        unfold check_rate_limit
        rw [hk, if_pos hle]
  · refine ⟨true,
      max 0 (limit - ((rl_kept st i window now ++ [now]).length : Int)),
      now + window,
      ⟨setEntry (rl_cleanup st now).requests i
        (rl_kept st i window now ++ [now]),
        (rl_cleanup st now).lastCleanup⟩, ?_, le_max_left 0 _,
      fun h => nomatch h⟩
    unfold check_rate_limit
    rw [if_neg hle]

/-- Claim C10 witness: a fresh limiter with limit one returns a result with
non-negative remaining. -/
theorem check_rate_limit_total_witness :
    ∃ allowed remaining reset st2,
      check_rate_limit ⟨[], 0⟩ "x" 1 60 5 =
        some ((allowed, remaining, reset), st2) ∧
      0 ≤ remaining ∧
      (allowed = false → rl_kept ⟨[], 0⟩ "x" 60 5 ≠ []) :=
  check_rate_limit_total ⟨[], 0⟩ "x" 1 60 5 (by decide)

/-- Claim C3 counterexample: after a successful load cached the set, a
failing re-read makes reload_file replace the cached set with the empty
set, so the previously cached set is not left in place. -/
theorem reload_clears_cache_counterexample :
    (reload_file fsEmpty [(file_key ['k'], [['o', 'l', 'd']])]
        ['k']).lookup (file_key ['k']) = some [] ∧
      (some ([] : List Str)) ≠ some [['o', 'l', 'd']] := by
  constructor
  · decide
  · decide

/-- Claim C3 (amended): when the watched file has a cached entry and the
re-read fails, reload_file replaces the cached set with the empty set (the
read error is swallowed and the empty result is cached); the previous set
is not preserved. -/
theorem reload_replaces_cache_with_empty (fs : SysFS)
    (cache : List (Str × List Str)) (p : Str)
    (hread : fs.readFile p = none)
    (hcached : (cache.lookup (file_key p)).isSome = true) :
    (reload_file fs cache p).lookup (file_key p) = some [] := by
  unfold reload_file
  rw [if_pos hcached]
  unfold read_keys_from_file
  rw [hread]
  exact lookup_setEntry _ _ _

/-- Claim C3 witness: a concrete cache entry is replaced by the empty set
when the read fails. -/
theorem reload_replaces_cache_with_empty_witness :
    (reload_file fsEmpty [(file_key ['k'], [['o']])] ['k']).lookup
        (file_key ['k']) = some [] :=
  reload_replaces_cache_with_empty fsEmpty [(file_key ['k'], [['o']])]
    ['k'] rfl (by decide)

/-- Claim C5: a source whose stripped form looks like a path (contains a
separator or ends in .txt or .keys) and does not exist on disk makes
load_keys raise the path-like-but-missing configuration error; it is never
treated as an inline literal key list. -/
theorem path_like_missing_source_errors (fs : SysFS) (source : Str)
    (hlk : looks_like_path (pyStrip source) = true)
    (hex : fs.pathExists (pyStrip source) = false) :
    load_keys fs source = .error [.missingPathLike] := by
  have hsne : pyStrip source ≠ [] := by
    intro h
    rw [h] at hlk
    exact absurd hlk (by decide)
  have hsrc : source ≠ [] := by
    intro h
    apply hsne
    rw [h]
    rfl
  simp [load_keys, validate_api_key_source, hsrc, hsne, hex, hlk]

/-- Claim C5 witness: the missing path-like source a/b errors on an empty
filesystem. -/
theorem path_like_missing_source_errors_witness :
    load_keys fsEmpty ['a', '/', 'b'] = .error [.missingPathLike] :=
  path_like_missing_source_errors fsEmpty ['a', '/', 'b'] (by decide) rfl

/-- Claim C4: a configuration whose enabled declarations repeat a
(path, method) pair fails endpoint validation with the duplicate pairs,
and load_and_register registers no route from that document. -/
theorem duplicate_endpoints_rejected {H : Type} (reg : ServiceRegistry H)
    (decls : List EndpointConfig)
    (hdup : ¬ (enabled_path_methods decls).Nodup) :
    (∃ dups, validate_endpoints decls = .error dups) ∧
      load_and_register reg decls = [] := by
  have hne : (enabled_path_methods decls).length ≠
      (enabled_path_methods decls).dedup.length := by
    intro h
    apply hdup
    have hsub := List.dedup_sublist (enabled_path_methods decls)
    have heq := hsub.eq_of_length h.symm
    rw [← heq]
    exact List.nodup_dedup _
  have hv : validate_endpoints decls = .error
      ((enabled_path_methods decls).filter fun pm =>
        1 < (enabled_path_methods decls).count pm) := by
    simp [validate_endpoints, hne]
  refine ⟨⟨_, hv⟩, ?_⟩
  simp [load_and_register, load_endpoints_config, hv, Except.map]

/-- Claim C4 witness: two identical enabled declarations are rejected and
register nothing. -/
theorem duplicate_endpoints_rejected_witness :
    (∃ dups, validate_endpoints
        [⟨"/a", .GET, "svc", true, false, none⟩,
          ⟨"/a", .GET, "svc", true, false, none⟩] = .error dups) ∧
      load_and_register (fun _ => (none : Option Nat))
        [⟨"/a", .GET, "svc", true, false, none⟩,
          ⟨"/a", .GET, "svc", true, false, none⟩] = [] :=
  duplicate_endpoints_rejected (fun _ => (none : Option Nat))
    [⟨"/a", .GET, "svc", true, false, none⟩,
      ⟨"/a", .GET, "svc", true, false, none⟩] (by decide)

/-- Claim C6: when rate limiting is enabled and the limiter denies, the
middleware returns the 429 response with the rate-limit headers for every
possible inner-chain response, so the returned response is never the one
produced by the inner stages. -/
theorem rate_limit_denial_short_circuits (s : Settings) (st st2 : RLState)
    (host : String) (apiKey : Option String) (now rem reset : Int)
    (hen : s.rate_limit_enabled = true)
    (hden : check_rate_limit st (rl_identifier host apiKey)
        (rl_limit s apiKey) 60 now = some ((false, rem, reset), st2)) :
    (∀ inner : Response,
      rate_limit_dispatch s st host apiKey now inner =
        some (rate_limit_429_response (rl_limit s apiKey) reset, st2)) ∧
      (rate_limit_429_response (rl_limit s apiKey) reset).status = 429 ∧
      (rate_limit_429_response (rl_limit s apiKey) reset).headers =
        [("X-RateLimit-Limit", toString (rl_limit s apiKey)),
          ("X-RateLimit-Remaining", "0"),
          ("X-RateLimit-Reset", toString reset)] := by
  refine ⟨fun inner => ?_, rfl, rfl⟩
  simp [rate_limit_dispatch, hen, hden]

/-- Claim C6 witness: a concrete denied request returns the 429 response
regardless of the inner response. -/
theorem rate_limit_denial_short_circuits_witness :
    rate_limit_dispatch ⟨true, 1, 1⟩ ⟨[("h", [5])], 0⟩ "h" none 10
        ⟨200, [], .content 0⟩ =
      some (rate_limit_429_response 1 65, ⟨[("h", [5])], 0⟩) :=
  (rate_limit_denial_short_circuits ⟨true, 1, 1⟩ ⟨[("h", [5])], 0⟩
    ⟨[("h", [5])], 0⟩ "h" none 10 0 65 rfl (by decide)).1
    ⟨200, [], .content 0⟩

/-- Claim C2: with limit three and a sixty-second window, four checks for
one identifier within the window from a fresh limiter allow the first
three with remaining two, one and zero, and deny the fourth with remaining
zero and a reset equal to the oldest retained timestamp plus the window,
strictly greater than the first request time. -/
theorem rate_limit_four_calls (i : String) (t1 t2 t3 t4 : Int)
    (h12 : t1 ≤ t2) (h23 : t2 ≤ t3) (h34 : t3 ≤ t4) (hw : t4 < t1 + 60) :
    check_rate_limit ⟨[], t1⟩ i 3 60 t1 =
      some ((true, 2, t1 + 60), ⟨[(i, [t1])], t1⟩) ∧
    check_rate_limit ⟨[(i, [t1])], t1⟩ i 3 60 t2 =
      some ((true, 1, t2 + 60), ⟨[(i, [t1, t2])], t1⟩) ∧
    check_rate_limit ⟨[(i, [t1, t2])], t1⟩ i 3 60 t3 =
      some ((true, 0, t3 + 60), ⟨[(i, [t1, t2, t3])], t1⟩) ∧
    check_rate_limit ⟨[(i, [t1, t2, t3])], t1⟩ i 3 60 t4 =
      some ((false, 0, t1 + 60), ⟨[(i, [t1, t2, t3])], t1⟩) ∧
    t1 < t1 + 60 := by
  have k1 : rl_kept ⟨[], t1⟩ i 60 t1 = [] := by
    simp [rl_kept, rl_cleanup, bucket, List.lookup,
      show t1 - t1 < 60 by omega]
  have k2 : rl_kept ⟨[(i, [t1])], t1⟩ i 60 t2 = [t1] := by
    simp [rl_kept, rl_cleanup, bucket, List.lookup,
      show t2 - t1 < 60 by omega, show t2 - 60 < t1 by omega]
  have k3 : rl_kept ⟨[(i, [t1, t2])], t1⟩ i 60 t3 = [t1, t2] := by
    simp [rl_kept, rl_cleanup, bucket, List.lookup,
      show t3 - t1 < 60 by omega, show t3 - 60 < t1 by omega,
      show t3 - 60 < t2 by omega]
  have k4 : rl_kept ⟨[(i, [t1, t2, t3])], t1⟩ i 60 t4 = [t1, t2, t3] := by
    simp [rl_kept, rl_cleanup, bucket, List.lookup,
      show t4 - t1 < 60 by omega, show t4 - 60 < t1 by omega,
      show t4 - 60 < t2 by omega, show t4 - 60 < t3 by omega]
  refine ⟨?_, ?_, ?_, ?_, by omega⟩
  · unfold check_rate_limit
    rw [k1]
    rw [if_neg (by norm_num)]
    simp [rl_cleanup, setEntry, show t1 - t1 < 60 by omega]
  · unfold check_rate_limit
    rw [k2]
    rw [if_neg (by norm_num)]
    simp [rl_cleanup, setEntry, show t2 - t1 < 60 by omega]
  · unfold check_rate_limit
    rw [k3]
    rw [if_neg (by norm_num)]
    simp [rl_cleanup, setEntry, show t3 - t1 < 60 by omega]
  · unfold check_rate_limit
    rw [k4]
    rw [if_pos (by norm_num)]
    simp [rl_cleanup, setEntry, show t4 - t1 < 60 by omega]

/-- Claim C2 witness: four concrete calls at times zero to three. -/
theorem rate_limit_four_calls_witness :
    check_rate_limit ⟨[], 0⟩ "c" 3 60 0 =
      some ((true, 2, 0 + 60), ⟨[("c", [0])], 0⟩) ∧
    check_rate_limit ⟨[("c", [0])], 0⟩ "c" 3 60 1 =
      some ((true, 1, 1 + 60), ⟨[("c", [0, 1])], 0⟩) ∧
    check_rate_limit ⟨[("c", [0, 1])], 0⟩ "c" 3 60 2 =
      some ((true, 0, 2 + 60), ⟨[("c", [0, 1, 2])], 0⟩) ∧
    check_rate_limit ⟨[("c", [0, 1, 2])], 0⟩ "c" 3 60 3 =
      some ((false, 0, 0 + 60), ⟨[("c", [0, 1, 2])], 0⟩) ∧
    (0 : Int) < 0 + 60 :=
  rate_limit_four_calls "c" 0 1 2 3 (by decide) (by decide) (by decide)
    (by decide)

/-- Folding register_endpoint over declarations appends, in order, the
(method, path) of every enabled declaration whose service resolves. -/
theorem foldl_register_endpoint {H : Type} (reg : ServiceRegistry H)
    (decls : List EndpointConfig) (acc : List (HTTPMethod × String)) :
    decls.foldl (register_endpoint reg) acc =
      acc ++ (decls.filter fun c =>
        c.enabled && (get_service reg c.service).isSome).map
        fun c => (c.method, c.path) := by
  induction decls generalizing acc with
  | nil => simp
  | cons c rest ih =>
      simp only [List.foldl_cons, List.filter_cons]
      by_cases he : c.enabled = true
      · cases hs : get_service reg c.service with
        | none => simp [register_endpoint, he, hs, ih]
        | some v => simp [register_endpoint, he, hs, ih]
      · have he2 : c.enabled = false := by
          cases hcc : c.enabled
          · rfl
          · exact absurd hcc he
        simp [register_endpoint, he2, ih]

/-- Claim C8: on a valid configuration, load_and_register registers exactly
the enabled declarations whose service resolves, in order; an enabled
declaration with an unregistered service gets no route, without preventing
any other enabled declaration with a registered service from being
registered. -/
theorem missing_service_skipped {H : Type} (reg : ServiceRegistry H)
    (decls : List EndpointConfig)
    (hok : (enabled_path_methods decls).Nodup) :
    load_and_register reg decls =
      (decls.filter fun c =>
        c.enabled && (get_service reg c.service).isSome).map
        (fun c => (c.method, c.path)) ∧
    (∀ d ∈ decls, d.enabled = true → get_service reg d.service = none →
      (d.method, d.path) ∉ load_and_register reg decls) ∧
    (∀ d ∈ decls, d.enabled = true →
      (get_service reg d.service).isSome = true →
      (d.method, d.path) ∈ load_and_register reg decls) := by
  have hded : (enabled_path_methods decls).dedup = enabled_path_methods decls :=
    List.dedup_eq_self.mpr hok
  have hval : validate_endpoints decls = .ok decls := by
    simp [validate_endpoints, hded]
  have hlr : load_and_register reg decls =
      (decls.filter fun c =>
        c.enabled && (get_service reg c.service).isSome).map
        (fun c => (c.method, c.path)) := by
    unfold load_and_register load_endpoints_config
    rw [hval]
    simpa [Except.map] using foldl_register_endpoint reg decls []
  refine ⟨hlr, ?_, ?_⟩
  · intro d hd hde hdn hmem
    rw [hlr] at hmem
    obtain ⟨c, hcmem, hceq⟩ := List.mem_map.mp hmem
    obtain ⟨hc1, hc2⟩ := List.mem_filter.mp hcmem
    obtain ⟨hce, hcs⟩ : c.enabled = true ∧
        (get_service reg c.service).isSome = true := by simpa using hc2
    have hcd : c = d := by
      have hm : c.method = d.method := congrArg Prod.fst hceq
      have hp : c.path = d.path := congrArg Prod.snd hceq
      exact List.inj_on_of_nodup_map hok
        (List.mem_filter.mpr ⟨hc1, hce⟩)
        (List.mem_filter.mpr ⟨hd, hde⟩)
        (by rw [hp, hm])
    rw [hcd, hdn] at hcs
    exact Bool.noConfusion hcs
  · intro d hd hde hds
    rw [hlr]
    exact List.mem_map.mpr
      ⟨d, List.mem_filter.mpr ⟨hd, by rw [hde, hds]; rfl⟩, rfl⟩

/-- Claim C8 witness: with only svc registered, the declaration bound to a
missing service gets no route while the declaration bound to svc does. -/
theorem missing_service_skipped_witness :
    (HTTPMethod.GET, "/b") ∉ load_and_register
        (fun n => if n = "svc" then some (1 : Nat) else none)
        [⟨"/a", .GET, "svc", true, false, none⟩,
          ⟨"/b", .GET, "missing", true, false, none⟩] ∧
      (HTTPMethod.GET, "/a") ∈ load_and_register
        (fun n => if n = "svc" then some (1 : Nat) else none)
        [⟨"/a", .GET, "svc", true, false, none⟩,
          ⟨"/b", .GET, "missing", true, false, none⟩] :=
  ⟨(missing_service_skipped
      (fun n => if n = "svc" then some (1 : Nat) else none)
      [⟨"/a", .GET, "svc", true, false, none⟩,
        ⟨"/b", .GET, "missing", true, false, none⟩] (by decide)).2.1
      ⟨"/b", .GET, "missing", true, false, none⟩ (by decide) rfl (by decide),
    (missing_service_skipped
      (fun n => if n = "svc" then some (1 : Nat) else none)
      [⟨"/a", .GET, "svc", true, false, none⟩,
        ⟨"/b", .GET, "missing", true, false, none⟩] (by decide)).2.2
      ⟨"/a", .GET, "svc", true, false, none⟩ (by decide) rfl (by decide)⟩

end Apiary
